import Mathlib

/-!
Verification development for the results-loading and filtering engine of
`plot.py` (a post-processing script for a parameterized simulation sweep).

The script's own code (the batch loader over `results.cache`) is embedded
directly.  The support module `common_plot` (parameter codec, condition
matcher, bulk filter, multi-metric evaluator) is not part of the sources,
so those components are modelled from the specification; each such
definition carries a doc comment starting with `Modelled from the spec:`.

Python floats are modelled as rationals (`Rat`); Python exceptions are
modelled with `Except`.
-/

/-! ### A model of Python `float(...)` on decimal literals -/

/-- Numeric value of a list of decimal digit characters, most significant
first. -/
def digitsVal (ds : List Char) : Nat :=
  ds.foldl (fun n c => 10 * n + (c.toNat - 48)) 0

/-- Parse a nonempty all-digit character list as a natural number. -/
def parseDigits (cs : List Char) : Option Nat :=
  if cs ≠ [] ∧ cs.all Char.isDigit then some (digitsVal cs) else none

/-- Parse an optionally signed nonempty digit string as an integer. -/
def parseSignedDigits : List Char → Option Int
  | '+' :: rest => (parseDigits rest).map (fun n => (n : Int))
  | '-' :: rest => (parseDigits rest).map (fun n => -(n : Int))
  | rest => (parseDigits rest).map (fun n => (n : Int))

/-- Parse the exponent tail of a float literal: either nothing (exponent 0)
or `e`/`E` followed by an optionally signed digit string. -/
def parseExpTail : List Char → Option Int
  | [] => some 0
  | 'e' :: rest => parseSignedDigits rest
  | 'E' :: rest => parseSignedDigits rest
  | _ => none

/-- Powers of 10 as rationals, by plain recursion so that it evaluates. -/
def tenPowNat : Nat → Rat
  | 0 => 1
  | n + 1 => 10 * tenPowNat n

/-- Power of 10 as a rational, for an integer exponent `e`. -/
def tenPow (e : Int) : Rat :=
  if 0 ≤ e then tenPowNat e.toNat else (tenPowNat (-e).toNat)⁻¹

/-- Parse the mantissa of a float literal (digits with an optional decimal
point, at least one digit required), returning its value and the unconsumed
tail. -/
def parseMantissa (cs : List Char) : Option (Rat × List Char) :=
  let intPart := cs.takeWhile Char.isDigit
  let rest1 := cs.dropWhile Char.isDigit
  match rest1 with
  | '.' :: rest2 =>
    let fracPart := rest2.takeWhile Char.isDigit
    let rest3 := rest2.dropWhile Char.isDigit
    if intPart = [] ∧ fracPart = [] then none
    else some (((digitsVal (intPart ++ fracPart) : Int) : Rat) *
                 tenPow (-(fracPart.length : Int)), rest3)
  | _ =>
    if intPart = [] then none else some (((digitsVal intPart : Int) : Rat), rest1)

/-- Unsigned float literal: mantissa followed by an exponent tail. -/
def parseFloatCore (cs : List Char) : Option Rat :=
  match parseMantissa cs with
  | none => none
  | some (m, rest) =>
    match parseExpTail rest with
    | none => none
    | some e => some (m * tenPow e)

/-- Model of Python `float(s)` on the plain decimal-literal fragment used by
the cache file: optional sign, digits with optional decimal point, optional
`e`/`E` exponent.  Returns `none` exactly where Python raises `ValueError`
(`inf`/`nan`/underscore forms do not occur in the cache and are treated as
invalid). -/
def parseFloat (s : String) : Option Rat :=
  match s.data with
  | '+' :: rest => parseFloatCore rest
  | '-' :: rest => (parseFloatCore rest).map (fun q => -q)
  | cs => parseFloatCore cs

/-! ### The parameter codec (`parse_parameters` of `common_plot`) -/

/-- Split a character list on a separator character; always returns at least
one (possibly empty) segment, as `(first segment, later segments)`. -/
def splitOnCAux (c : Char) : List Char → List Char × List (List Char)
  | [] => ([], [])
  | x :: xs =>
    if x = c then ([], (splitOnCAux c xs).1 :: (splitOnCAux c xs).2)
    else (x :: (splitOnCAux c xs).1, (splitOnCAux c xs).2)

/-- All segments of a character list split on a separator character. -/
def splitOnC (c : Char) (cs : List Char) : List (List Char) :=
  (splitOnCAux c cs).1 :: (splitOnCAux c cs).2

/-- Split a token at its first `=`, if any, into key and value parts. -/
def splitFirstEq : List Char → Option (List Char × List Char)
  | [] => none
  | x :: xs =>
    if x = '=' then some ([], xs)
    else (splitFirstEq xs).map (fun kv => (x :: kv.1, kv.2))

/-- One fold step of the codec's parser: a token containing `=` starts a new
`(key, value)` pair; a token without `=` is a continuation of the previous
pair's comma-joined list value and is glued back with the comma that was
consumed by the split (tokens before any pair are dropped).  The accumulator
is kept in reverse order. -/
def parseStep (acc : List (List Char × List Char)) (tok : List Char) :
    List (List Char × List Char) :=
  match splitFirstEq tok with
  | some kv => kv :: acc
  | none =>
    match acc with
    | [] => []
    | p :: rest => (p.1, p.2 ++ ',' :: tok) :: rest

/-- Character-level parameter parsing: split the token on commas and fold up
the `(key, value)` pairs. -/
def parsePairs (cs : List Char) : List (List Char × List Char) :=
  (List.foldl parseStep [] (splitOnC ',' cs)).reverse

/-- Character-level serialization: `key=value` pairs joined by commas. -/
def serializePairs : List (List Char × List Char) → List Char
  | [] => []
  | [p] => p.1 ++ '=' :: p.2
  | p :: rest => p.1 ++ '=' :: p.2 ++ ',' :: serializePairs rest

/-- Modelled from the spec: `parse_parameters` of the missing `common_plot`
module (§4.1 ParameterCodec).  The input token encodes all swept parameters
with a delimiter-based `key=value` scheme (comma between pairs, `=` inside a
pair); values that are themselves comma-joined lists are tolerated by gluing
delimiter-free tokens back onto the previous value; boolean values stay the
literal strings "true"/"false". -/
def parse_parameters (s : String) : List (String × String) :=
  (parsePairs s.data).map (fun p => (String.mk p.1, String.mk p.2))

/-- Modelled from the spec: the serialization direction of the §4.1
ParameterCodec (`key=value` pairs joined by commas), the inverse the round
trip property of §8 is stated against. -/
def serialize_parameters (ps : List (String × String)) : String :=
  String.mk (serializePairs (ps.map (fun p => (p.1.data, p.2.data))))

/-- Rejoin comma-split segments onto an initial segment: the value a parsed
pair accumulates when its serialized form contained commas. -/
def glue : List Char → List (List Char) → List Char
  | w, [] => w
  | w, t :: ts => glue (w ++ ',' :: t) ts

/-! ### The batch loader of `plot.py` (lines 64–90) -/

/-- Python whitespace for `str.split()` with no separator. -/
def isWs (c : Char) : Bool :=
  c = ' ' || c = '\t' || c = '\n' || c = '\r'

/-- Worker for `pySplit`: `cur` holds the current field reversed. -/
def splitWsAux : List Char → List Char → List String
  | [], [] => []
  | [], cur => [String.mk cur.reverse]
  | c :: cs, cur =>
    if isWs c then
      match cur with
      | [] => splitWsAux cs []
      | _ => String.mk cur.reverse :: splitWsAux cs []
    else splitWsAux cs (c :: cur)

/-- Model of Python `line.split()`: split on runs of whitespace, discarding
empty fields. -/
def pySplit (line : String) : List String :=
  splitWsAux line.data []

/-- The Python exceptions the loader body can raise. -/
inductive PyError where
  | indexError : PyError
  | valueError : String → PyError
  deriving DecidableEq, Repr

instance {ε α : Type} [DecidableEq ε] [DecidableEq α] :
    DecidableEq (Except ε α) := fun x y =>
  match x, y with
  | Except.ok a, Except.ok b =>
    if h : a = b then isTrue (by rw [h])
    else isFalse (fun hh => h (Except.ok.inj hh))
  | Except.error e, Except.error f =>
    if h : e = f then isTrue (by rw [h])
    else isFalse (fun hh => h (Except.error.inj hh))
  | Except.ok _, Except.error _ => isFalse (fun hh => Except.noConfusion hh)
  | Except.error _, Except.ok _ => isFalse (fun hh => Except.noConfusion hh)

/-- Model of `parts[i]`: the field at index `i`, raising `IndexError` when
the index is out of range. -/
def getPart (parts : List String) (i : Nat) : Except PyError String :=
  match parts.get? i with
  | some s => Except.ok s
  | none => Except.error PyError.indexError

/-- Model of `float(s)`: raises `ValueError` on a non-literal. -/
def pyFloat (s : String) : Except PyError Rat :=
  match parseFloat s with
  | some q => Except.ok q
  | none => Except.error (PyError.valueError s)

/-- One loaded experiment outcome (`entry` of `plot.py`).  Field names follow
the dictionary keys; `ts_95`, `ts_997`, `cost_efficiency`, `cost_safety`,
`cost_accel`, `cost_steer` stand for the keys "95_ts", "997_ts",
"cost.efficiency", "cost.safety", "cost.accel", "cost.steer". -/
structure Record where
  params : List (String × String)
  efficiency : Rat
  safety : Rat
  ud : Rat
  cc : Rat
  mean_ts : Rat
  ts_95 : Rat
  ts_997 : Rat
  max_ts : Rat
  stddev_ts : Rat
  cost_efficiency : Rat
  cost_safety : Rat
  cost_accel : Rat
  cost_steer : Rat
  cost : Rat
  deriving DecidableEq, Repr

/-- The loader body of `plot.py` lines 67–90 applied to the already split
fields `parts` of one line: lines with at most 9 fields are skipped
(`Except.ok none`); otherwise the fields are read and float-parsed in the
source's evaluation order (5–13 then 1–4) and the record is built, with
`cost` set to the sum of the four cost components. -/
def loadLineParts (parts : List String) : Except PyError (Option Record) :=
  if parts.length > 9 then do
    let p0 ← getPart parts 0
    let params := parse_parameters p0
    let efficiency ← pyFloat (← getPart parts 5)
    let safety ← pyFloat (← getPart parts 6)
    let ud ← pyFloat (← getPart parts 7)
    let cc ← pyFloat (← getPart parts 8)
    let mean_ts ← pyFloat (← getPart parts 9)
    let ts_95 ← pyFloat (← getPart parts 10)
    let ts_997 ← pyFloat (← getPart parts 11)
    let max_ts ← pyFloat (← getPart parts 12)
    let stddev_ts ← pyFloat (← getPart parts 13)
    let cost_efficiency ← pyFloat (← getPart parts 1)
    let cost_safety ← pyFloat (← getPart parts 2)
    let cost_accel ← pyFloat (← getPart parts 3)
    let cost_steer ← pyFloat (← getPart parts 4)
    Except.ok (some
      { params := params
        efficiency := efficiency
        safety := safety
        ud := ud
        cc := cc
        mean_ts := mean_ts
        ts_95 := ts_95
        ts_997 := ts_997
        max_ts := max_ts
        stddev_ts := stddev_ts
        cost_efficiency := cost_efficiency
        cost_safety := cost_safety
        cost_accel := cost_accel
        cost_steer := cost_steer
        cost := cost_efficiency + cost_safety + cost_accel + cost_steer })
  else
    Except.ok none

/-- Process one raw line: split it on whitespace and run the loader body. -/
def loadLine (line : String) : Except PyError (Option Record) :=
  loadLineParts (pySplit line)

/-- The whole loading loop over the lines of `results.cache`: accepted
records are appended in file order; a raised exception aborts the batch
load. -/
def loadResults : List String → Except PyError (List Record)
  | [] => Except.ok []
  | line :: rest =>
    match loadLine line with
    | Except.error e => Except.error e
    | Except.ok none => loadResults rest
    | Except.ok (some r) => (loadResults rest).map (fun rs => r :: rs)

/-- The record a single line contributes to `results`, if any: `some r` for
an accepted line, `none` for a skipped or raising line. -/
def acceptedRecord (line : String) : Option Record :=
  match loadLine line with
  | Except.ok (some r) => some r
  | _ => none

/-! ### The condition matcher (`common_plot`, spec §4.2) -/

/-- An expected value in a filter condition: the callers of `plot.py` pass
both strings (e.g. `("use_cfb", "false")`) and numbers
(e.g. `("samples_n", 8)`, `("max.rng_seed", 2047)`). -/
inductive PVal where
  | str : String → PVal
  | num : Rat → PVal
  deriving DecidableEq, Repr

/-- The numeric reading of an expected value, when it has one. -/
def pvalNum : PVal → Option Rat
  | PVal.num q => some q
  | PVal.str s => parseFloat s

/-- Modelled from the spec: plain-equality comparison of a stored parameter
value against an expected value, "comparing canonicalized (stringified
numeric) forms" so the filter may specify `2` where the stored value is
`"2"` and vice versa (§4.2); a type mismatch is a non-match, never an
error (§7). -/
def canonEq (v : String) (e : PVal) : Bool :=
  match e with
  | PVal.num q =>
    match parseFloat v with
    | some a => a == q
    | none => false
  | PVal.str s =>
    match parseFloat v, parseFloat s with
    | some a, some b => a == b
    | _, _ => v == s

/-- Strip an expected literal character prefix, returning the remainder. -/
def stripPrefixC : List Char → List Char → Option (List Char)
  | [], cs => some cs
  | _ :: _, [] => none
  | p :: ps, c :: cs => if c = p then stripPrefixC ps cs else none

/-- Modelled from the spec: one condition check of the §4.2 ConditionMatcher.
A key starting with the `max.` namespace marker is stripped and requires
`record.params[inner_key] <= expected` under numeric comparison, failing the
match (not raising) when the record lacks the key or a side is not numeric;
any other key requires canonicalized equality, with a missing key a
non-match. -/
def matchCond (r : Record) (cond : String × PVal) : Bool :=
  match stripPrefixC ['m', 'a', 'x', '.'] cond.1.data with
  | some inner =>
    match List.lookup (String.mk inner) r.params with
    | none => false
    | some v =>
      match parseFloat v, pvalNum cond.2 with
      | some a, some b => decide (a ≤ b)
      | _, _ => false
  | none =>
    match List.lookup cond.1 r.params with
    | none => false
    | some v => canonEq v cond.2

/-- Modelled from the spec: the predicate the spec calls
`matches(record, conditions)` in §4.2 — all `(key, expected)` pairs must
hold (AND semantics), and an empty condition list matches every record
(renamed here because the source name is a reserved word in Lean). -/
def condMatches (r : Record) (conds : List (String × PVal)) : Bool :=
  conds.all (matchCond r)

/-- Modelled from the spec: the companion bulk operation
`filter_extra(records, conditions)` returning all matching records in their
original order (§4.2). -/
def filter_extra : List Record → List (String × PVal) → List Record
  | [], _ => []
  | r :: rs, conds =>
    if condMatches r conds then r :: filter_extra rs conds
    else filter_extra rs conds

/-! ### The multi-metric evaluator (`common_plot`, spec §4.3) -/

/-- Mean of a list of metric values (0 on the empty list, where Python's
mean of an empty selection is undefined anyway). -/
def meanOf (xs : List Rat) : Rat :=
  xs.sum / (xs.length : Rat)

/-- Sample variance with the unbiased `n - 1` denominator; the standard
deviation the spec speaks of is its square root, which is kept squared here
to stay inside the rationals. -/
def sampleVar (xs : List Rat) : Rat :=
  (xs.map (fun x => (x - meanOf xs) * (x - meanOf xs))).sum /
    ((xs.length : Rat) - 1)

/-- The `{mean, stddev}` summary of one metric; `variance` is the squared
standard deviation. -/
structure MetricStats where
  mean : Rat
  variance : Rat
  deriving DecidableEq, Repr

/-- The metric fields of a record by their dictionary key in `plot.py`. -/
def getMetric (r : Record) (m : String) : Option Rat :=
  if m = "cost" then some r.cost
  else if m = "efficiency" then some r.efficiency
  else if m = "safety" then some r.safety
  else if m = "ud" then some r.ud
  else if m = "cc" then some r.cc
  else if m = "cost.efficiency" then some r.cost_efficiency
  else if m = "cost.safety" then some r.cost_safety
  else if m = "cost.accel" then some r.cost_accel
  else if m = "cost.steer" then some r.cost_steer
  else if m = "mean_ts" then some r.mean_ts
  else if m = "95_ts" then some r.ts_95
  else if m = "997_ts" then some r.ts_997
  else if m = "max_ts" then some r.max_ts
  else if m = "stddev_ts" then some r.stddev_ts
  else none

/-- The values of one named metric over a record list. -/
def metricValues (rs : List Record) (m : String) : List Rat :=
  rs.filterMap (fun r => getMetric r m)

/-- Modelled from the spec: `evaluate_conditions(records, metrics,
conditions)` of §4.3 — for each named metric, the `{mean, stddev}` statistic
over the records matching the one fixed condition set, with no domain/split
grouping. -/
def evaluate_conditions (records : List Record) (metrics : List String)
    (conds : List (String × PVal)) : List (String × MetricStats) :=
  let matched := filter_extra records conds
  metrics.map (fun m =>
    (m, MetricStats.mk (meanOf (metricValues matched m))
          (sampleVar (metricValues matched m))))

/-! ### Concrete data for witnesses and scenarios -/

/-- A well-formed cache line: parameter token plus 13 numeric fields. -/
def g1line : String := "method=fixed 1 2 3 4 5 6 7 8 9 10 11 12 13"

/-- A malformed cache line with only 8 whitespace-separated fields. -/
def badLine8 : String := "method=fixed 1 2 3 4 5 6 7"

/-- A second well-formed cache line. -/
def g2line : String := "method=mpdm,use_cfb=true 4 3 2 1 13 12 11 10 9 8 7 6 5"

/-- The record loaded from `g1line`. -/
def demoRec : Record :=
  { params := [("method", "fixed")]
    efficiency := 5
    safety := 6
    ud := 7
    cc := 8
    mean_ts := 9
    ts_95 := 10
    ts_997 := 11
    max_ts := 12
    stddev_ts := 13
    cost_efficiency := 1
    cost_safety := 2
    cost_accel := 3
    cost_steer := 4
    cost := 10 }

/-- A hand-made record for matcher/evaluator scenarios. -/
def mkDemoRec (method : String) (c s : Rat) : Record :=
  { params := [("method", method), ("rng_seed", "7")]
    efficiency := 0
    safety := s
    ud := 0
    cc := 0
    mean_ts := 0
    ts_95 := 0
    ts_997 := 0
    max_ts := 0
    stddev_ts := 0
    cost_efficiency := c
    cost_safety := 0
    cost_accel := 0
    cost_steer := 0
    cost := c }

/-- Demo record collection: two `method=fixed` runs and one `method=mpdm`
run. -/
def demoRecords : List Record :=
  [mkDemoRec "fixed" 10 0, mkDemoRec "mpdm" 99 5, mkDemoRec "fixed" 20 1]

/-! ### Helper lemmas about the loader -/

theorem bind_def {α β : Type} (x : Except PyError α) (f : α → Except PyError β) :
    x >>= f = Except.bind x f := rfl

theorem except_bind_eq_ok {α β : Type} {x : Except PyError α}
    {f : α → Except PyError β} {b : β} :
    (x >>= f) = Except.ok b ↔ ∃ a, x = Except.ok a ∧ f a = Except.ok b := by
  cases x with
  | ok a => simp [bind_def, Except.bind]
  | error e => simp [bind_def, Except.bind]

theorem loadResults_cons (line : String) (rest : List String) :
    loadResults (line :: rest) =
      match loadLine line with
      | Except.error e => Except.error e
      | Except.ok none => loadResults rest
      | Except.ok (some r) => (loadResults rest).map (fun rs => r :: rs) :=
  rfl

theorem loadLineParts_cost_helper {parts : List String} {r : Record}
    (h : loadLineParts parts = Except.ok (some r)) :
    r.cost = r.cost_efficiency + r.cost_safety + r.cost_accel + r.cost_steer := by
  unfold loadLineParts at h
  split at h
  · simp only [except_bind_eq_ok, Except.ok.injEq, Option.some.injEq] at h
    obtain ⟨a0, h0, a1, h1, a2, h2, a3, h3, a4, h4, a5, h5, a6, h6, a7, h7, a8, h8, a9, h9, a10, h10, a11, h11, a12, h12, a13, h13, a14, h14, a15, h15, a16, h16, a17, h17, a18, h18, a19, h19, a20, h20, a21, h21, a22, h22, a23, h23, a24, h24, a25, h25, a26, h26, hfin⟩ := h
    subst hfin
    rfl
  · exact Option.noConfusion (Except.ok.inj h)

theorem acceptedRecord_eq_some {line : String} {r : Record}
    (h : acceptedRecord line = some r) :
    loadLine line = Except.ok (some r) := by
  unfold acceptedRecord at h
  cases hl : loadLine line with
  | error e => rw [hl] at h; exact Option.noConfusion h
  | ok o =>
    cases o with
    | none => rw [hl] at h; exact Option.noConfusion h
    | some r' => rw [hl] at h; rw [Option.some.inj h]

theorem loadResults_filterMap_helper {lines : List String} {rs : List Record}
    (h : loadResults lines = Except.ok rs) :
    rs = lines.filterMap acceptedRecord := by
  induction lines generalizing rs with
  | nil =>
    simp only [loadResults, Except.ok.injEq] at h
    simp [h.symm]
  | cons line rest ih =>
    unfold loadResults at h
    cases hl : loadLine line with
    | error e => rw [hl] at h; exact Except.noConfusion h
    | ok o =>
      cases o with
      | none =>
        rw [hl] at h
        rw [List.filterMap_cons]
        have ha : acceptedRecord line = none := by
          unfold acceptedRecord; rw [hl]
        rw [ha]
        exact ih h
      | some r =>
        rw [hl] at h
        cases hr : loadResults rest with
        | error e => rw [hr] at h; exact Except.noConfusion h
        | ok rs0 =>
          rw [hr] at h
          simp only [Except.map, Except.ok.injEq] at h
          have ha : acceptedRecord line = some r := by
            unfold acceptedRecord; rw [hl]
          rw [List.filterMap_cons, ha]
          rw [← ih hr]
          exact h.symm

/-! ### Claim theorems about the loader -/

/-- C1 (counterexample): the claim "no line's content ever causes the loader
to raise or abort the whole batch load" is false — a line of exactly 10
whitespace-separated fields passes the `len(parts) > 9` guard and then
raises `IndexError` at `parts[10]`, aborting the batch load. -/
theorem loader_raise_cex :
    loadResults ["m=1 0 0 0 0 0 0 0 0 0"] = Except.error PyError.indexError :=
  rfl

/-- C1 (amended): a malformed record line with too few fields (at most 9
whitespace-separated fields) is recovered locally by skipping it, and such a
line never causes the loader to raise; lines with 10 or more fields are
processed unguarded and can still raise. -/
theorem loader_skips_short_lines (line : String) (rest : List String)
    (h : (pySplit line).length ≤ 9) :
    loadResults (line :: rest) = loadResults rest := by
  have hl : loadLine line = Except.ok none := by
    unfold loadLine loadLineParts
    rw [if_neg (by omega)]
  rw [loadResults_cons, hl]

/-- C1 (witness): the 8-field demo line is short, and loading it in front of
an empty file is the same as loading the empty file. -/
theorem loader_skips_short_lines_witness :
    (pySplit badLine8).length ≤ 9 ∧
      loadResults [badLine8] = loadResults [] :=
  ⟨by decide, loader_skips_short_lines badLine8 [] (by decide)⟩

/-- C2: the per-line guard admits any line with at least 10 fields but then
unconditionally reads fields 10–13 and float-parses fields 1–13, so a
10-field line raises `IndexError` and a 14-field line whose field 1 is not a
float literal raises `ValueError` — the load aborts instead of skipping the
line. -/
theorem loader_admits_then_raises :
    (pySplit "m=1 0 0 0 0 0 0 0 0 0").length = 10 ∧
      loadResults ["m=1 0 0 0 0 0 0 0 0 0"] = Except.error PyError.indexError ∧
      (pySplit "m=1 abc 0 0 0 1 2 3 4 5 6 7 8 9").length = 14 ∧
      loadResults ["m=1 abc 0 0 0 1 2 3 4 5 6 7 8 9"] =
        Except.error (PyError.valueError "abc") :=
  ⟨rfl, rfl, rfl, rfl⟩

/-- C3: on a well-formed line (all 14 fields present, fields 1–13 float
literals) the loader takes every record field from the whitespace-split line
by fixed position: field 0 feeds `parse_parameters`, fields 1–4 the four
cost components, fields 5–8 efficiency/safety/ud/cc, fields 9–13 the timing
statistics, each parsed as a float. -/
theorem loader_field_positions (parts : List String)
    {s0 s1 s2 s3 s4 s5 s6 s7 s8 s9 s10 s11 s12 s13 : String}
    {x1 x2 x3 x4 x5 x6 x7 x8 x9 x10 x11 x12 x13 : Rat}
    (h0 : parts.get? 0 = some s0) (h1 : parts.get? 1 = some s1)
    (h2 : parts.get? 2 = some s2) (h3 : parts.get? 3 = some s3)
    (h4 : parts.get? 4 = some s4) (h5 : parts.get? 5 = some s5)
    (h6 : parts.get? 6 = some s6) (h7 : parts.get? 7 = some s7)
    (h8 : parts.get? 8 = some s8) (h9 : parts.get? 9 = some s9)
    (h10 : parts.get? 10 = some s10) (h11 : parts.get? 11 = some s11)
    (h12 : parts.get? 12 = some s12) (h13 : parts.get? 13 = some s13)
    (p1 : parseFloat s1 = some x1) (p2 : parseFloat s2 = some x2)
    (p3 : parseFloat s3 = some x3) (p4 : parseFloat s4 = some x4)
    (p5 : parseFloat s5 = some x5) (p6 : parseFloat s6 = some x6)
    (p7 : parseFloat s7 = some x7) (p8 : parseFloat s8 = some x8)
    (p9 : parseFloat s9 = some x9) (p10 : parseFloat s10 = some x10)
    (p11 : parseFloat s11 = some x11) (p12 : parseFloat s12 = some x12)
    (p13 : parseFloat s13 = some x13) :
    loadLineParts parts = Except.ok (some
      { params := parse_parameters s0
        efficiency := x5
        safety := x6
        ud := x7
        cc := x8
        mean_ts := x9
        ts_95 := x10
        ts_997 := x11
        max_ts := x12
        stddev_ts := x13
        cost_efficiency := x1
        cost_safety := x2
        cost_accel := x3
        cost_steer := x4
        cost := x1 + x2 + x3 + x4 }) := by
  have hlen : parts.length > 9 := by
    have hlt := List.get?_eq_some.mp h13
    obtain ⟨hl, -⟩ := hlt
    omega
  unfold loadLineParts
  rw [if_pos hlen]
  simp only [getPart, h0, h1, h2, h3, h4, h5, h6, h7, h8, h9, h10, h11, h12,
    h13, pyFloat, p1, p2, p3, p4, p5, p6, p7, p8, p9, p10, p11, p12, p13,
    bind_def, Except.bind]

/-- C3 (witness): the concrete well-formed line `g1line` loads with exactly
this field mapping. -/
theorem loader_field_positions_witness :
    (pySplit g1line).get? 0 = some "method=fixed" ∧
      loadLineParts (pySplit g1line) = Except.ok (some
        { params := parse_parameters "method=fixed"
          efficiency := 5
          safety := 6
          ud := 7
          cc := 8
          mean_ts := 9
          ts_95 := 10
          ts_997 := 11
          max_ts := 12
          stddev_ts := 13
          cost_efficiency := 1
          cost_safety := 2
          cost_accel := 3
          cost_steer := 4
          cost := 1 + 2 + 3 + 4 }) :=
  by
    with_unfolding_all
      exact ⟨rfl, loader_field_positions (pySplit g1line) rfl rfl rfl rfl rfl
        rfl rfl rfl rfl rfl rfl rfl rfl rfl rfl rfl rfl rfl rfl rfl rfl rfl
        rfl rfl rfl rfl rfl⟩

/-- C4: every record loaded into `results` has `cost` equal to the sum of
its four cost components; the value is fixed at construction inside the
loader (the functional embedding has no later mutation of a record). -/
theorem loaded_cost_component_sum (lines : List String) (rs : List Record)
    (r : Record) (h : loadResults lines = Except.ok rs) (hr : r ∈ rs) :
    r.cost = r.cost_efficiency + r.cost_safety + r.cost_accel + r.cost_steer := by
  have hfm := loadResults_filterMap_helper h
  subst hfm
  obtain ⟨line, -, hline⟩ := List.mem_filterMap.mp hr
  exact loadLineParts_cost_helper (acceptedRecord_eq_some hline)

/-- C4 (witness): the record loaded from the concrete line `g1line` has cost
`1 + 2 + 3 + 4 = 10`. -/
theorem loaded_cost_component_sum_witness :
    loadResults [g1line] = Except.ok [demoRec] ∧
      demoRec.cost =
        demoRec.cost_efficiency + demoRec.cost_safety +
          demoRec.cost_accel + demoRec.cost_steer :=
  ⟨by with_unfolding_all decide,
    loaded_cost_component_sum [g1line] [demoRec] demoRec
      (by with_unfolding_all decide) (List.mem_singleton.mpr rfl)⟩

/-- C5: loading a 3-line cache file with one malformed 8-field line between
two well-formed lines yields exactly 2 records — the 8-field line is
silently skipped, and the load equals the load of the file without it. -/
theorem three_line_scenario :
    loadResults [g1line, badLine8, g2line] = loadResults [g1line, g2line] ∧
      loadLine badLine8 = Except.ok none ∧
      (loadResults [g1line, badLine8, g2line]).map List.length =
        Except.ok 2 :=
  ⟨rfl, rfl, rfl⟩

/-- C10: when the batch load completes, `results` is exactly the
order-preserving selection of the accepted lines' records — each accepted
line contributes its record exactly once, in file order, with no
reordering, duplication, or dropping. -/
theorem loadResults_ordered_selection (lines : List String)
    (rs : List Record) (h : loadResults lines = Except.ok rs) :
    rs = lines.filterMap acceptedRecord :=
  loadResults_filterMap_helper h

/-- C10 (witness): on the one-line file `[g1line]` the loaded list is the
filterMap of the accepted records. -/
theorem loadResults_ordered_selection_witness :
    loadResults [g1line] = Except.ok [demoRec] ∧
      [demoRec] = List.filterMap acceptedRecord [g1line] :=
  ⟨by with_unfolding_all decide,
    loadResults_ordered_selection [g1line] [demoRec]
      (by with_unfolding_all decide)⟩

/-! ### Claim theorems about the condition matcher and evaluator -/

theorem filter_extra_eq_filter (records : List Record)
    (conds : List (String × PVal)) :
    filter_extra records conds =
      records.filter (fun r => condMatches r conds) := by
  induction records with
  | nil => rfl
  | cons r rs ih =>
    simp only [filter_extra, List.filter_cons]
    cases h : condMatches r conds <;> simp [h, ih]

/-- C6: matching a record against the single condition `("max.x", b)` holds
exactly when the record stores a parameter "x" whose value parses as a
number `q` with `q ≤ b`; a missing key or a non-numeric stored value is a
non-match (the matcher is a total boolean function, so no exception is
possible). -/
theorem max_bound_semantics (r : Record) (b : Rat) :
    condMatches r [("max.x", PVal.num b)] = true ↔
      ∃ v q, List.lookup "x" r.params = some v ∧
        parseFloat v = some q ∧ q ≤ b := by
  simp only [condMatches, List.all_cons, List.all_nil, Bool.and_true,
    matchCond]
  rw [show stripPrefixC ['m', 'a', 'x', '.'] ("max.x").data = some ['x']
    from rfl]
  dsimp only
  rw [show (String.mk ['x'] : String) = "x" from rfl]
  cases hv : List.lookup "x" r.params with
  | none => simp
  | some v =>
    cases hq : parseFloat v with
    | none => simp [hq, pvalNum]
    | some q => simp [hq, pvalNum, decide_eq_true_iff]

/-- C7: the bulk filter returns exactly the records satisfying the match
predicate, in their original order (it is a sublist of the input, never
re-sorted), and the empty condition list returns every record. -/
theorem filter_extra_spec (records : List Record)
    (conds : List (String × PVal)) :
    filter_extra records conds =
        records.filter (fun r => condMatches r conds) ∧
      List.Sublist (filter_extra records conds) records ∧
      filter_extra records [] = records := by
  refine ⟨filter_extra_eq_filter records conds, ?_, ?_⟩
  · rw [filter_extra_eq_filter]
    exact List.filter_sublist records
  · rw [filter_extra_eq_filter]
    simp [condMatches]

/-- C8: the evaluate operation maps each requested metric name to the
`{mean, stddev}` statistic (the standard deviation kept as its square, the
variance) computed only over the records matching the fixed condition set,
with no domain or split grouping; concretely, evaluating `cost` and
`safety` over the demo records under `method == "fixed"` uses exactly the
two fixed-method records. -/
theorem evaluate_conditions_spec :
    (∀ (records : List Record) (metrics : List String)
        (conds : List (String × PVal)),
      evaluate_conditions records metrics conds =
        metrics.map (fun m =>
          (m, MetricStats.mk
            (meanOf (metricValues
              (records.filter (fun r => condMatches r conds)) m))
            (sampleVar (metricValues
              (records.filter (fun r => condMatches r conds)) m))))) ∧
      evaluate_conditions demoRecords ["cost", "safety"]
          [("method", PVal.str "fixed")] =
        [("cost", MetricStats.mk 15 50),
          ("safety", MetricStats.mk (mkRat 1 2) (mkRat 1 2))] := by
  constructor
  · intro records metrics conds
    simp only [evaluate_conditions, filter_extra_eq_filter]
  · with_unfolding_all decide

/-! ### Helper lemmas for the parameter-codec round trip -/

theorem glue_append (a w : List Char) (ts : List (List Char)) :
    glue (a ++ w) ts = a ++ glue w ts := by
  induction ts generalizing w with
  | nil => rfl
  | cons t ts ih =>
    simp only [glue]
    rw [List.append_assoc, ih]

theorem glue_splitOnCAux (v : List Char) :
    glue (splitOnCAux ',' v).1 (splitOnCAux ',' v).2 = v := by
  induction v with
  | nil => rfl
  | cons x xs ih =>
    by_cases hx : x = ','
    · simp only [splitOnCAux, if_pos hx, glue, List.nil_append]
      rw [show (',' :: (splitOnCAux ',' xs).1 : List Char) =
        [','] ++ (splitOnCAux ',' xs).1 from rfl]
      rw [glue_append, ih, hx]
      rfl
    · simp only [splitOnCAux, if_neg hx]
      rw [show (x :: (splitOnCAux ',' xs).1 : List Char) =
        [x] ++ (splitOnCAux ',' xs).1 from rfl]
      rw [glue_append, ih]
      rfl

theorem splitOnCAux_sep (c : Char) (a b : List Char) :
    splitOnCAux c (a ++ c :: b) =
      ((splitOnCAux c a).1,
        (splitOnCAux c a).2 ++
          (splitOnCAux c b).1 :: (splitOnCAux c b).2) := by
  induction a with
  | nil => simp [splitOnCAux]
  | cons x a ih =>
    by_cases hx : x = c
    · simp only [List.cons_append, splitOnCAux, List.append_eq, if_pos hx,
        ih]
    · simp only [List.cons_append, splitOnCAux, List.append_eq, if_neg hx,
        ih]

theorem splitOnCAux_no_sep (c : Char) (a b : List Char) (h : c ∉ a) :
    splitOnCAux c (a ++ b) =
      (a ++ (splitOnCAux c b).1, (splitOnCAux c b).2) := by
  induction a with
  | nil => simp
  | cons x a ih =>
    have hx : ¬x = c := fun hc => h (hc ▸ List.mem_cons_self x a)
    have ha : c ∉ a := fun hc => h (List.mem_cons_of_mem x hc)
    simp only [List.cons_append, splitOnCAux, List.append_eq, if_neg hx,
      ih ha]

theorem mem_splitOnCAux_fst {c x : Char} {cs : List Char}
    (h : x ∈ (splitOnCAux c cs).1) : x ∈ cs := by
  induction cs with
  | nil => simp [splitOnCAux] at h
  | cons y ys ih =>
    by_cases hy : y = c
    · simp only [splitOnCAux, if_pos hy] at h
      simp at h
    · simp only [splitOnCAux, if_neg hy] at h
      rcases List.mem_cons.mp h with h | h
      · exact h ▸ List.mem_cons_self y ys
      · exact List.mem_cons_of_mem y (ih h)

theorem mem_splitOnCAux_snd {c x : Char} {cs : List Char} {t : List Char}
    (ht : t ∈ (splitOnCAux c cs).2) (h : x ∈ t) : x ∈ cs := by
  induction cs with
  | nil => simp [splitOnCAux] at ht
  | cons y ys ih =>
    by_cases hy : y = c
    · simp only [splitOnCAux, if_pos hy] at ht
      rcases List.mem_cons.mp ht with hh | hh
      · exact List.mem_cons_of_mem y (mem_splitOnCAux_fst (hh ▸ h))
      · exact List.mem_cons_of_mem y (ih hh)
    · simp only [splitOnCAux, if_neg hy] at ht
      exact List.mem_cons_of_mem y (ih ht)

theorem splitFirstEq_none {tok : List Char} (h : '=' ∉ tok) :
    splitFirstEq tok = none := by
  induction tok with
  | nil => rfl
  | cons x xs ih =>
    have hx : ¬x = '=' := fun hc => h (hc ▸ List.mem_cons_self x xs)
    have hxs : '=' ∉ xs := fun hc => h (List.mem_cons_of_mem x hc)
    simp only [splitFirstEq, if_neg hx, ih hxs, Option.map_none']

theorem splitFirstEq_key {k w : List Char} (h : '=' ∉ k) :
    splitFirstEq (k ++ '=' :: w) = some (k, w) := by
  induction k with
  | nil => simp [splitFirstEq]
  | cons x xs ih =>
    have hx : ¬x = '=' := fun hc => h (hc ▸ List.mem_cons_self x xs)
    have hxs : '=' ∉ xs := fun hc => h (List.mem_cons_of_mem x hc)
    simp only [List.cons_append, splitFirstEq, List.append_eq, if_neg hx,
      ih hxs, Option.map_some']

theorem foldl_parseStep_no_eq (vs : List (List Char))
    (hvs : ∀ t ∈ vs, '=' ∉ t) (k w : List Char)
    (acc : List (List Char × List Char)) :
    List.foldl parseStep ((k, w) :: acc) vs = (k, glue w vs) :: acc := by
  induction vs generalizing w with
  | nil => rfl
  | cons t ts ih =>
    have ht : '=' ∉ t := hvs t (List.mem_cons_self t ts)
    have hts : ∀ u ∈ ts, '=' ∉ u := fun u hu =>
      hvs u (List.mem_cons_of_mem t hu)
    simp only [List.foldl_cons, parseStep, splitFirstEq_none ht, glue]
    exact ih hts (w ++ ',' :: t)

theorem foldl_parseStep_one (k v : List Char)
    (acc : List (List Char × List Char))
    (hk : '=' ∉ k) (hkc : ',' ∉ k) (hv : '=' ∉ v) :
    List.foldl parseStep acc (splitOnC ',' (k ++ '=' :: v)) =
      (k, v) :: acc := by
  have hsplit : splitOnCAux ',' (k ++ '=' :: v) =
      (k ++ '=' :: (splitOnCAux ',' v).1, (splitOnCAux ',' v).2) := by
    rw [splitOnCAux_no_sep ',' k ('=' :: v) hkc]
    have : splitOnCAux ',' ('=' :: v) =
        ('=' :: (splitOnCAux ',' v).1, (splitOnCAux ',' v).2) := by
      simp [splitOnCAux]
    rw [this]
  unfold splitOnC
  rw [hsplit]
  simp only [List.foldl_cons, parseStep,
    splitFirstEq_key (w := (splitOnCAux ',' v).1) hk]
  have hvs : ∀ t ∈ (splitOnCAux ',' v).2, '=' ∉ t := fun t ht hx =>
    hv (mem_splitOnCAux_snd ht hx)
  rw [foldl_parseStep_no_eq _ hvs, glue_splitOnCAux]

theorem foldl_parseStep_serialize (ps : List (List Char × List Char))
    (hne : ps ≠ [])
    (hp : ∀ p ∈ ps, '=' ∉ p.1 ∧ ',' ∉ p.1 ∧ '=' ∉ p.2)
    (acc : List (List Char × List Char)) :
    List.foldl parseStep acc (splitOnC ',' (serializePairs ps)) =
      ps.reverse ++ acc := by
  induction ps generalizing acc with
  | nil => exact absurd rfl hne
  | cons p rest ih =>
    obtain ⟨hk, hkc, hv⟩ := hp p (List.mem_cons_self p rest)
    cases rest with
    | nil =>
      simp only [serializePairs]
      rw [foldl_parseStep_one p.1 p.2 acc hk hkc hv]
      rfl
    | cons q rest2 =>
      have hrest : ∀ u ∈ q :: rest2, '=' ∉ u.1 ∧ ',' ∉ u.1 ∧ '=' ∉ u.2 :=
        fun u hu => hp u (List.mem_cons_of_mem p hu)
      simp only [serializePairs]
      rw [show splitOnC ',' ((p.1 ++ '=' :: p.2) ++
            ',' :: serializePairs (q :: rest2)) =
          splitOnC ',' (p.1 ++ '=' :: p.2) ++
            splitOnC ',' (serializePairs (q :: rest2)) by
        unfold splitOnC
        rw [splitOnCAux_sep]
        rfl]
      rw [List.foldl_append, foldl_parseStep_one p.1 p.2 acc hk hkc hv]
      rw [ih (by simp) hrest]
      simp

/-- C9: parsing the serialized form of a parameter mapping gives back the
original mapping, for every mapping whose keys contain neither `=` nor the
pair delimiter `,` and whose values contain no `=` — which covers all the
supported value types (strings, ints, floats, booleans as the literal
strings "true"/"false", and comma-joined list values). -/
theorem parse_serialize_round_trip (ps : List (String × String))
    (hp : ∀ p ∈ ps, '=' ∉ p.1.data ∧ ',' ∉ p.1.data ∧ '=' ∉ p.2.data) :
    parse_parameters (serialize_parameters ps) = ps := by
  show (parsePairs
      (String.mk (serializePairs
        (ps.map (fun p => (p.1.data, p.2.data))))).data).map
      (fun p => (String.mk p.1, String.mk p.2)) = ps
  have hp' : ∀ p ∈ ps.map (fun p => (p.1.data, p.2.data)),
      '=' ∉ p.1 ∧ ',' ∉ p.1 ∧ '=' ∉ p.2 := by
    intro p hmem
    obtain ⟨q, hq, rfl⟩ := List.mem_map.mp hmem
    exact hp q hq
  cases hps : ps.map (fun p => (p.1.data, p.2.data)) with
  | nil =>
    have : ps = [] := List.map_eq_nil_iff.mp hps
    subst this
    rfl
  | cons hd tl =>
    have hpairs : parsePairs (serializePairs (hd :: tl)) = hd :: tl := by
      unfold parsePairs
      rw [foldl_parseStep_serialize (hd :: tl) (by simp)
        (hps ▸ hp') []]
      simp
    show (parsePairs (serializePairs (hd :: tl))).map
        (fun p => (String.mk p.1, String.mk p.2)) = ps
    rw [hpairs, ← hps, List.map_map]
    exact List.map_id ps

/-- C9 (witness): the round trip on a concrete mapping with a plain string,
an int, a boolean-as-string, a float, and a comma-list value. -/
theorem parse_serialize_round_trip_witness :
    (∀ p ∈ ([("method", "mcts"), ("samples_n", "32"), ("use_cfb", "true"),
          ("replan_dt", "0.25"),
          ("extra_ego_accdec_policies", "-1,-2,1,2")] :
            List (String × String)),
        '=' ∉ p.1.data ∧ ',' ∉ p.1.data ∧ '=' ∉ p.2.data) ∧
      parse_parameters (serialize_parameters
          [("method", "mcts"), ("samples_n", "32"), ("use_cfb", "true"),
            ("replan_dt", "0.25"),
            ("extra_ego_accdec_policies", "-1,-2,1,2")]) =
        [("method", "mcts"), ("samples_n", "32"), ("use_cfb", "true"),
          ("replan_dt", "0.25"),
          ("extra_ego_accdec_policies", "-1,-2,1,2")] :=
  ⟨by decide, parse_serialize_round_trip _ (by decide)⟩
